import Mathlib

/-!
Verification development for the task-scheduling core of the repository
(`src/agents/scheduler_agent.py` and `src/agents/time_constraint_parser.py`).

Modelling conventions, shared by all definitions below:

* A Python `datetime` is modelled as an `Int`: the number of seconds of naive
  local time since 1970-01-01 00:00:00 (a Thursday), at second granularity.
  `timedelta(minutes=m)` is `60 * m` seconds and `timedelta(days=d)` is
  `86400 * d` seconds.
* All the `datetime.now()` calls made during one invocation of
  `_create_schedule` (resp. `update_schedule`) are modelled as one fixed
  instant `now`; the sub-second drift of the clock between two statements of
  the same call is not modelled.
* Python `int(x)` applied to the exact quotient `total_seconds() / 60`
  truncates toward zero; this is `Int.tdiv` (`seconds.tdiv 60`).  Python `%`
  on integers is `Int.emod` (written `%`) and `//` is floor division, which
  for the positive divisors used here is `Int.ediv` (written `/`).
* Durations (`estimated_duration_minutes`, `actual_duration`) are `Int`
  minutes, as produced by Python `int(...)`.
* The CP-SAT solver is modelled extensionally: a solver outcome with status
  `OPTIMAL` or `FEASIBLE` is an assignment of the integer variables that
  satisfies every constraint added to the model.  `satisfiesB cfg sol`
  transcribes the constraints that `_create_schedule` adds (lines 104-174 of
  `scheduler_agent.py`); the makespan variable and the objective are omitted
  because they do not constrain the task variables.
* Python `set` iteration order is unspecified; the fallback branch's
  `set(task.get('id') for task in tasks)` is determinised as the insertion
  order list `List.dedup` and `next(iter(s))` as its head.
-/

namespace Sched

/-- A task as consumed by `_create_schedule` after the id-normalisation loop
(lines 76-80): `id` is the string-normalised value of the `'id'` key (or of
`'ID'` when only `'ID'` was present), `altID` is the string form of the `'ID'`
key when that key is present (used by the second estimate lookup at line 114),
and `dependencies` is the string-normalised dependency list. -/
structure Task where
  id : String
  altID : Option String
  dependencies : List String
deriving DecidableEq

/-- A duration estimate (`estimates` entries) after the normalisation loop
(lines 82-84): `task_id` is the string-normalised id and
`estimated_duration_minutes` is the value of `int(e['estimated_duration_minutes'])`. -/
structure Estimate where
  task_id : String
  estimated_duration_minutes : Int
deriving DecidableEq

/-- The `ScheduledTask` pydantic model (lines 13-18); times are seconds. -/
structure ScheduledTask where
  task_id : String
  start_time : Int
  end_time : Int
  assigned_to : String
  deadline : Option Int
deriving DecidableEq

/-- The input of one `_create_schedule` call: the task and estimate batches,
the deadline map computed by `extract_task_constraints`, the busy intervals
returned by `_get_unavailable_times` (absolute seconds), the optional project
deadline from `extract_global_constraints`, and the instant `now`. -/
structure Cfg where
  now : Int
  tasks : List Task
  estimates : List Estimate
  deadlines : String → Option Int
  unavailable : List (Int × Int)
  projectDeadline : Option Int

/-- The scheduling horizon `max_time = 180 * 24 * 60` minutes (line 96). -/
def maxTime : Int := 180 * 24 * 60

/-- Duration resolution for one task (lines 110-122): the first estimate whose
`task_id` equals the task's id; failing that, the first estimate whose
`task_id` equals `str(task.get('ID', task.get('id')))`; failing that, 60. -/
def resolveDuration (estimates : List Estimate) (t : Task) : Int :=
  match estimates.find? (fun e => e.task_id == t.id) with
  | some e => e.estimated_duration_minutes
  | none =>
    match estimates.find? (fun e => e.task_id == t.altID.getD t.id) with
    | some e => e.estimated_duration_minutes
    | none => 60

/-- The `task_durations` dict keyed by task id (line 124; a later task with
the same id overwrites an earlier one) with the `.get(task_id, 60)` default
used by the fallback branch (lines 220, 251). -/
def durOf (tasks : List Task) (estimates : List Estimate) (id : String) : Int :=
  match tasks.reverse.find? (fun t => t.id == id) with
  | some t => resolveDuration estimates t
  | none => 60

/-- Offset of the absolute instant `t` from `now` in truncated minutes:
`int((t - datetime.now()).total_seconds() / 60)`. -/
def minutesFromNow (now t : Int) : Int := Int.tdiv (t - now) 60

/-- The per-task deadline constraint added at lines 131-137: when the task has
an extracted deadline with positive truncated minute offset, an auxiliary
variable bounded by `[0, max_time]` is pinned to that offset and the task's
end variable is bounded by it; a non-positive offset adds nothing. -/
def deadlineOk (cfg : Cfg) (sol : String → Int × Int) (t : Task) : Bool :=
  match cfg.deadlines t.id with
  | some dl =>
    let dm := minutesFromNow cfg.now dl
    if 0 < dm then decide (dm ≤ maxTime) && decide ((sol t.id).2 ≤ dm) else true
  | none => true

/-- The per-task variable constraints added at lines 125-137: start and end
variables range over `[0, max_time]`, `end = start + duration`, and the
deadline constraint. -/
def taskOk (cfg : Cfg) (sol : String → Int × Int) (t : Task) : Bool :=
  decide (0 ≤ (sol t.id).1) && decide ((sol t.id).1 ≤ maxTime) &&
  decide (0 ≤ (sol t.id).2) && decide ((sol t.id).2 ≤ maxTime) &&
  ((sol t.id).2 == (sol t.id).1 + resolveDuration cfg.estimates t) &&
  deadlineOk cfg sol t

/-- The dependency constraints added at lines 140-146: for every dependency id
that is the id of some task in the batch, `start(task) ≥ end(dependency)`. -/
def depOk (cfg : Cfg) (sol : String → Int × Int) (t : Task) : Bool :=
  t.dependencies.all fun d =>
    if cfg.tasks.any (fun t' => t'.id == d) then decide ((sol d).2 ≤ (sol t.id).1)
    else true

/-- The busy-interval disjunction added at lines 148-158 for one interval: for
every task, either its end variable is at most the interval's truncated start
offset, or its start variable is at least the interval's truncated end offset
(the auxiliary boolean choice variable is eliminated by taking the
disjunction of the two enforced constraints). -/
def busyOk (cfg : Cfg) (sol : String → Int × Int) (u : Int × Int) : Bool :=
  cfg.tasks.all fun t =>
    decide ((sol t.id).2 ≤ minutesFromNow cfg.now u.1) ||
    decide (minutesFromNow cfg.now u.2 ≤ (sol t.id).1)

/-- The project-deadline constraints added at lines 160-167. -/
def projOk (cfg : Cfg) (sol : String → Int × Int) : Bool :=
  match cfg.projectDeadline with
  | some pd =>
    let pm := minutesFromNow cfg.now pd
    if 0 < pm then
      decide (pm ≤ maxTime) && cfg.tasks.all (fun t => decide ((sol t.id).2 ≤ pm))
    else true
  | none => true

/-- An assignment `sol` maps each task id to the values of its start and end variables; this
predicate holds exactly when `sol` satisfies every constraint that
`_create_schedule` adds to the CP-SAT model.  A solve ending in `OPTIMAL` or
`FEASIBLE` yields such an assignment. -/
def satisfiesB (cfg : Cfg) (sol : String → Int × Int) : Bool :=
  cfg.tasks.all (taskOk cfg sol) &&
  cfg.tasks.all (depOk cfg sol) &&
  cfg.unavailable.all (busyOk cfg sol) &&
  projOk cfg sol

/-- One entry of the solver-branch result (lines 183-200): the start is
`now + timedelta(minutes=solver.Value(start_var))`, the end is the start plus
the resolved duration, the assignee is the constant `"default"`, and the
extracted deadline is carried through. -/
def solverEntry (cfg : Cfg) (sol : String → Int × Int) (t : Task) : ScheduledTask :=
  let start := cfg.now + 60 * (sol t.id).1
  { task_id := t.id
    start_time := start
    end_time := start + 60 * durOf cfg.tasks cfg.estimates t.id
    assigned_to := "default"
    deadline := cfg.deadlines t.id }

/-- The solver-branch result list (lines 181-201): one entry per input task,
in input order. -/
def solverSchedule (cfg : Cfg) (sol : String → Int × Int) : List ScheduledTask :=
  cfg.tasks.map (solverEntry cfg sol)

/-- The cursor adjustment of lines 222-226 (and 253-257): if the cursor lies
inside some busy interval, jump to the end of the first such interval in list
order (the loop breaks after the first hit and does not re-check). -/
def jumpBusy (unavail : List (Int × Int)) (cur : Int) : Int :=
  match unavail.find? (fun u => decide (u.1 ≤ cur) && decide (cur < u.2)) with
  | some u => u.2
  | none => cur

/-- One fallback-branch entry scheduled at cursor `cur` (lines 219-245 and
248-276): the start is the busy-adjusted cursor, the end is the start plus
`task_durations.get(task_id, 60)` minutes. -/
def fallbackEntry (cfg : Cfg) (tid : String) (cur : Int) : ScheduledTask :=
  let start := jumpBusy cfg.unavailable cur
  { task_id := tid
    start_time := start
    end_time := start + 60 * durOf cfg.tasks cfg.estimates tid
    assigned_to := "default"
    deadline := cfg.deadlines tid }

/-- The inner `for task in tasks` scan of lines 211-219: the first input task
that is still unscheduled and whose dependencies are all scheduled. -/
def findReady (tasks : List Task) (remaining scheduled : List String) : Option Task :=
  tasks.find? fun t =>
    remaining.contains t.id && t.dependencies.all (fun d => scheduled.contains d)

/-- The fallback `while task_ids_to_schedule` loop (lines 210-278).  Each pass
schedules the first ready task, or — when every remaining task has an
unscheduled dependency (the circular-dependency situation) — force-schedules
the first remaining id.  Every pass removes exactly one id, so running the
recursion on `remaining.length` fuel is exact. -/
def fallbackGo (cfg : Cfg) : Nat → List String → List String → Int → List ScheduledTask
  | 0, _, _, _ => []
  | _, [], _, _ => []
  | fuel + 1, r₀ :: rest, scheduled, cur =>
    let remaining := r₀ :: rest
    match findReady cfg.tasks remaining scheduled with
    | some t =>
      let e := fallbackEntry cfg t.id cur
      e :: fallbackGo cfg fuel (remaining.erase t.id) (t.id :: scheduled) e.end_time
    | none =>
      let e := fallbackEntry cfg r₀ cur
      e :: fallbackGo cfg fuel rest (r₀ :: scheduled) e.end_time

/-- The id set `set(task.get('id') for task in tasks)` of line 207,
determinised as the duplicate-free list of task ids. -/
def initRemaining (tasks : List Task) : List String := (tasks.map Task.id).dedup

/-- The fallback-branch result of `_create_schedule` (lines 202-278), produced
when the solve ends neither `OPTIMAL` nor `FEASIBLE`. -/
def fallbackSchedule (cfg : Cfg) : List ScheduledTask :=
  fallbackGo cfg (initRemaining cfg.tasks).length (initRemaining cfg.tasks) [] cfg.now

/-!
## The incremental rescheduler (`update_schedule`, lines 280-346)

A schedule entry is one of the dicts of `current_schedule`.  Each field models
one dict key as the rescheduler accesses it: `none` in `task_id` means the
`"task_id"` key is missing (so `task["task_id"]` raises `KeyError`); `none` in
`start_time`/`end_time` means the key is missing or its value is rejected by
`datetime.fromisoformat` (both raise); `deadline = none` means no `"deadline"`
key, `deadline = some none` a present but unparseable one; `status` is the
`"Status"` key the loop writes.

`updated_schedule = current_schedule.copy()` (line 316) is a *shallow* copy:
the entry dicts are shared with the input list and the loop mutates them in
place.  The embedding makes this observable by threading the mutated list
through `Except`: `.error l` means an exception was raised with the shared
entry dicts in state `l`; the `except` handler (lines 344-346) then returns
`current_schedule`, whose entries are exactly those mutated dicts.
-/

/-- One entry of the `current_schedule` list passed to `update_schedule`. -/
structure Entry where
  task_id : Option String
  start_time : Option Int
  end_time : Option Int
  deadline : Option (Option Int)
  status : Option String
deriving DecidableEq

/-- The status strings written at lines 334-340. -/
def tightMsg : String := "⚠️ Tight deadline"

/-- The on-track status string (line 340). -/
def onTrackMsg : String := "✅ On track"

/-- The search loop of lines 294-300: the first entry whose `task_id` equals
the completed id, with its index.  `none` models a `KeyError` on a missing
`task_id` key hit before a match; `some none` means no entry matched. -/
def findCompleted (cid : String) : List Entry → Option (Option (Nat × Entry))
  | [] => some none
  | e :: rest =>
    match e.task_id with
    | none => none
    | some tid =>
      if tid = cid then some (some (0, e))
      else
        match findCompleted cid rest with
        | none => none
        | some none => some none
        | some (some (i, e')) => some (some (i + 1, e'))

/-- The shift loop of lines 317-340 over the entries after the completed one.
Each entry's start and end are moved by `timedelta(minutes=diff)` and, when a
deadline is present, its `Status` is recomputed (tight when the new end
exceeds the deadline or the buffer is under 24 hours).  An unparseable time
raises before the entry is touched; an unparseable deadline raises after the
entry's times were already updated. -/
def updateLoop (diff : Int) : List Entry → Except (List Entry) (List Entry)
  | [] => .ok []
  | e :: rest =>
    match e.start_time, e.end_time with
    | some s, some en =>
      let e1 : Entry :=
        { e with start_time := some (s + 60 * diff), end_time := some (en + 60 * diff) }
      match e.deadline with
      | some none => .error (e1 :: rest)
      | some (some dl) =>
        let ne := en + 60 * diff
        let e2 : Entry :=
          { e1 with
            status := some (if dl < ne then tightMsg
                            else if dl - ne < 86400 then tightMsg else onTrackMsg) }
        (match updateLoop diff rest with
         | .ok l => .ok (e2 :: l)
         | .error l => .error (e2 :: l))
      | none =>
        (match updateLoop diff rest with
         | .ok l => .ok (e1 :: l)
         | .error l => .error (e1 :: l))
    | _, _ => .error (e :: rest)

/-- The function `update_schedule(current_schedule, completed_task_id, actual_duration)`
(lines 280-346).  The completed entry is located by string comparison; if it
is absent the input is returned (warning only).  Otherwise
`delta = actual_duration - int((end-start).total_seconds()/60)`; a zero delta
returns the input, and a non-zero delta shifts every later entry in list
order.  Any exception is caught and `current_schedule` — the input list with
whatever in-place mutations already happened — is returned. -/
def update_schedule (schedule : List Entry) (cid : String) (actual : Int) : List Entry :=
  match findCompleted cid schedule with
  | none => schedule
  | some none => schedule
  | some (some (i, e)) =>
    match e.start_time, e.end_time with
    | some s, some en =>
      let diff := actual - Int.tdiv (en - s) 60
      if diff = 0 then schedule
      else
        match updateLoop diff (schedule.drop (i + 1)) with
        | .ok l => schedule.take (i + 1) ++ l
        | .error l => schedule.take (i + 1) ++ l
    | _, _ => schedule

/-!
## The deadline extractor (`time_constraint_parser.py`)

The regex patterns of `TimeConstraintParser.patterns` are transcribed into a
small regular-expression AST and decided with Brzozowski derivatives;
`re.search` is "some suffix has a matching prefix".  Character classes are
restricted to the ones the patterns use (`\s`, `\d`, literal characters); the
patterns are matched against the lowercased text exactly as the source does.
Capture groups appear in two places: `specific_date` (whose group(1) text is
fed to `dateparser` — modelled abstractly in `CalendarOps` since `dateparser`
is an external library) and the `(\d+)` of the `in/within N days|weeks|months`
patterns, for which `relSearch` implements the leftmost search with greedy
digit capture directly.
-/

/-- Python `\s` (ASCII whitespace; the parser's inputs are plain text). -/
def isSpaceChar (c : Char) : Bool :=
  c = ' ' || c = '\t' || c = '\n' || c = '\r' || c = '\x0b' || c = '\x0c'

/-- A character class appearing in the parser's patterns. -/
inductive CClass where
  | space
  | digit
  | lit (c : Char)
deriving DecidableEq

/-- Membership test of a character class. -/
def CClass.test : CClass → Char → Bool
  | .space, c => isSpaceChar c
  | .digit, c => c.isDigit
  | .lit c', c => c = c'

/-- Regular expressions over `CClass`. -/
inductive RE where
  | fail
  | eps
  | tok (cc : CClass)
  | seq (a b : RE)
  | alt (a b : RE)
  | star (a : RE)
deriving DecidableEq

/-- Smart sequencing (prunes `fail` and `eps`). -/
def RE.mkSeq : RE → RE → RE
  | .fail, _ => .fail
  | _, .fail => .fail
  | .eps, b => b
  | a, .eps => a
  | a, b => .seq a b

/-- Smart alternation (prunes `fail`). -/
def RE.mkAlt : RE → RE → RE
  | .fail, b => b
  | a, .fail => a
  | a, b => .alt a b

/-- Does the expression accept the empty string? -/
def RE.nullable : RE → Bool
  | .fail => false
  | .eps => true
  | .tok _ => false
  | .seq a b => a.nullable && b.nullable
  | .alt a b => a.nullable || b.nullable
  | .star _ => true

/-- Brzozowski derivative with respect to one character. -/
def RE.deriv : RE → Char → RE
  | .fail, _ => .fail
  | .eps, _ => .fail
  | .tok cc, c => if cc.test c then .eps else .fail
  | .seq a b, c =>
    if a.nullable then .mkAlt (.mkSeq (a.deriv c) b) (b.deriv c)
    else .mkSeq (a.deriv c) b
  | .alt a b, c => .mkAlt (a.deriv c) (b.deriv c)
  | .star a, c => .mkSeq (a.deriv c) (.star a)

/-- Does some prefix of `s` match `r`? -/
def REMatchesSomePre (r : RE) : List Char → Bool
  | [] => r.nullable
  | c :: rest => r.nullable || REMatchesSomePre (r.deriv c) rest

/-- Python `re.search(r, s)`: some substring of `s` matches `r`. -/
def reSearch (r : RE) : List Char → Bool
  | [] => REMatchesSomePre r []
  | s@(_ :: rest) => REMatchesSomePre r s || reSearch r rest

/-- Concatenation of a pattern list. -/
def reCat (l : List RE) : RE := l.foldr RE.seq RE.eps

/-- Alternation of a pattern list (`a|b|...`). -/
def reAlts : List RE → RE
  | [] => RE.fail
  | [r] => r
  | r :: rest => RE.alt r (reAlts rest)

/-- Pattern `r?`. -/
def reOpt (r : RE) : RE := RE.alt r RE.eps

/-- A literal string. -/
def reStr (s : String) : RE := reCat (s.data.map (fun c => RE.tok (.lit c)))

/-- Pattern `\s*`. -/
def sStar : RE := RE.star (RE.tok .space)

/-- Pattern `\s+`. -/
def sPlus : RE := RE.seq (RE.tok .space) sStar

/-- Pattern `\d`. -/
def reDigit : RE := RE.tok .digit

/-- The optional deadline-keyword head
`(?:by|before|until|prior to|no later than)?` shared by the patterns. -/
def leadOpt : RE :=
  reOpt (reAlts [reStr "by", reStr "before", reStr "until", reStr "prior to",
                 reStr "no later than"])

/-- Pattern `(?:the)?`. -/
def theOpt : RE := reOpt (reStr "the")

/-- The `'end_of_<period>'` patterns
`(?:by|before|until|prior to|no later than)?\s*(?:the)?\s*end\s*(?:of)?\s*(?:the)?\s*<period>`
(`patterns['end_of_year'|'end_of_month'|'end_of_week'|'end_of_day']`). -/
def endOfPat (period : String) : RE :=
  reCat [leadOpt, sStar, theOpt, sStar, reStr "end", sStar, reOpt (reStr "of"),
         sStar, theOpt, sStar, reStr period]

/-- Patterns `patterns['next_week']` and `patterns['next_month']`:
`(?:by|before|until|prior to|no later than)?\s*(?:the)?\s*next\s*<period>`. -/
def nextPat (period : String) : RE :=
  reCat [leadOpt, sStar, theOpt, sStar, reStr "next", sStar, reStr period]

/-- The month-name alternation of `patterns['specific_date']`. -/
def monthPat : RE :=
  reAlts
    [reCat [reStr "jan", reOpt (reStr "uary")],
     reCat [reStr "feb", reOpt (reStr "ruary")],
     reCat [reStr "mar", reOpt (reStr "ch")],
     reCat [reStr "apr", reOpt (reStr "il")],
     reStr "may",
     reCat [reStr "jun", reOpt (reStr "e")],
     reCat [reStr "jul", reOpt (reStr "y")],
     reCat [reStr "aug", reOpt (reStr "ust")],
     reCat [reStr "sep", reOpt (reStr "tember")],
     reCat [reStr "oct", reOpt (reStr "ober")],
     reCat [reStr "nov", reOpt (reStr "ember")],
     reCat [reStr "dec", reOpt (reStr "ember")]]

/-- Pattern `patterns['specific_date']`, whose mandatory part is the capture group
`(\d{1,2}(?:st|nd|rd|th)?\s+(?:of\s+)?<month>(?:\s+\d{4})?)`; since every
other piece is optional, `re.search` succeeds iff this pattern matches, and
then group(1) is non-empty. -/
def specificDatePat : RE :=
  reCat [leadOpt, sStar, theOpt, sStar,
         reDigit, reOpt reDigit,
         reOpt (reAlts [reStr "st", reStr "nd", reStr "rd", reStr "th"]),
         sPlus, reOpt (reCat [reStr "of", sPlus]), monthPat,
         reOpt (reCat [sPlus, reDigit, reDigit, reDigit, reDigit])]

/-- Greedy `\s*`. -/
def dropSpaces : List Char → List Char
  | [] => []
  | c :: rest => if isSpaceChar c then dropSpaces rest else c :: rest

/-- Accumulate a maximal run of leading digits into a decimal value. -/
def goDigits (acc : Nat) : List Char → Nat × List Char
  | [] => (acc, [])
  | c :: rest =>
    if c.isDigit then goDigits (acc * 10 + (c.toNat - 48)) rest
    else (acc, c :: rest)

/-- Greedy `(\d+)` with its numeric value (`int(group(1))`); `none` when no
leading digit. -/
def takeDigits (s : List Char) : Option (Nat × List Char) :=
  match s with
  | [] => none
  | c :: _ =>
    if c.isDigit then some (goDigits 0 s) else none

/-- Is `p` a prefix of `s`? -/
def listStartsWith (p s : List Char) : Bool :=
  match p, s with
  | [], _ => true
  | _ :: _, [] => false
  | c :: p', d :: s' => c = d && listStartsWith p' s'

/-- After the `in`/`within` keyword: match `\s*(\d+)\s*<unit>` and return the
captured number. -/
def relAt (unit : String) (s : List Char) : Option Nat :=
  match takeDigits (dropSpaces s) with
  | none => none
  | some (n, s') => if listStartsWith unit.data (dropSpaces s') then some n else none

/-- Search (`re.search`) of `(?:in|within)\s*(\d+)\s*<unit>` returning `int(group(1))`
(`patterns['days_from_now'|'weeks_from_now'|'months_from_now']`). -/
def relSearch (unit : String) : List Char → Option Nat
  | [] => none
  | s@(_ :: rest) =>
    match (if listStartsWith "in".data s then relAt unit (s.drop 2) else none) with
    | some n => some n
    | none =>
      match (if listStartsWith "within".data s then relAt unit (s.drop 6) else none) with
      | some n => some n
      | none => relSearch unit rest

/-- Python `str.lower()` restricted to ASCII (the parser's pattern alphabet). -/
def lowerChar (c : Char) : Char :=
  if 'A' ≤ c && c ≤ 'Z' then Char.ofNat (c.toNat + 32) else c

/-- The lowercased character list of a text (`text = text.lower()`, line 37). -/
def lowerStr (s : String) : List Char := s.data.map lowerChar

/-- The day number of an instant (`datetime.date()`, days since the epoch). -/
def dayIndex (t : Int) : Int := t / 86400

/-- The second-of-day of an instant. -/
def secOfDay (t : Int) : Int := t % 86400

/-- Python `datetime.weekday()`: Monday = 0 … Sunday = 6.  Day 0 of the epoch
(1970-01-01) is a Thursday, hence the offset 3. -/
def weekday (t : Int) : Int := (dayIndex t + 3) % 7

/-- Python `dt.replace(hour=23, minute=59, second=59)` at second granularity. -/
def replace235959 (t : Int) : Int := 86400 * dayIndex t + 86399

/-- Modelled from the external `dateparser` library and from `datetime`'s
calendar structure (year/month fields), which the seconds model does not
carry: the values produced by the branches of `extract_deadline` that the
claims below never reach.  `parseDate` is `dateparser.parse(date_str)`,
`parseFuture` is `dateparser.parse(text, PREFER_DATES_FROM='future')` with
exceptions mapped to `none`, `groupSpecificDate` the group(1) text of the
`specific_date` match, `endOfYear`/`endOfMonth`/`endOfNextMonth`/`monthsAhead`
the calendar arithmetic of lines 51-63, 81-91 and 104-128. -/
structure CalendarOps where
  parseDate : String → Option Int
  parseFuture : String → Option Int
  groupSpecificDate : List Char → String
  endOfYear : Int → Int
  endOfMonth : Int → Int
  endOfNextMonth : Int → Int
  monthsAhead : Nat → Int → Int

/-- The relative-pattern chain of `extract_deadline` (lines 48-139), applied
to the lowercased text `t`. -/
def extractRelative (ops : CalendarOps) (t : List Char) (now : Int) : Option Int :=
  if reSearch (endOfPat "year") t then some (ops.endOfYear now)
  else if reSearch (endOfPat "month") t then some (ops.endOfMonth now)
  else if reSearch (endOfPat "week") t then
    some (replace235959 (now + 86400 * ((6 - weekday now) % 7)))
  else if reSearch (endOfPat "day") t then some (replace235959 now)
  else if reSearch (nextPat "week") t then
    some (replace235959 (now + 86400 * ((6 - weekday now) % 7 + 7)))
  else if reSearch (nextPat "month") t then some (ops.endOfNextMonth now)
  else
    match relSearch "days" t with
    | some n => some (replace235959 (now + 86400 * n))
    | none =>
      match relSearch "weeks" t with
      | some n => some (replace235959 (now + 86400 * (7 * n)))
      | none =>
        match relSearch "months" t with
        | some n => some (replace235959 (ops.monthsAhead n now))
        | none => ops.parseFuture (String.mk t)

/-- The function `TimeConstraintParser.extract_deadline` (lines 24-139): empty text yields
`None`; the text is lowercased; a `specific_date` match is parsed by
`dateparser` and forced to 23:59:59 of that date, falling through to the
relative patterns when `dateparser` yields nothing; otherwise the relative
patterns are tried in source order, and `dateparser` is the last resort. -/
def extract_deadline (ops : CalendarOps) (text : String) (now : Int) : Option Int :=
  if text = "" then none
  else
    let t := lowerStr text
    if reSearch specificDatePat t then
      match ops.parseDate (ops.groupSpecificDate t) with
      | some d => some (replace235959 d)
      | none => extractRelative ops t now
    else extractRelative ops t now

/-!
## Concrete inputs used by counterexamples and witnesses
-/

/-- An empty deadline map. -/
def noDeadlines : String → Option Int := fun _ => none

/-- A batch with a two-task dependency cycle: `a` depends on `b` and `b`
depends on `a`; no estimates, no busy intervals, no deadlines. -/
def cycleCfg : Cfg :=
  { now := 0
    tasks := [⟨"a", none, ["b"]⟩, ⟨"b", none, ["a"]⟩]
    estimates := []
    deadlines := noDeadlines
    unavailable := []
    projectDeadline := none }

/-- A task carrying distinct `'id'` and `'ID'` keys (`id = "1"`, `ID = "2"`),
with the only estimate matching the `'ID'` value. -/
def altIdCfg : Cfg :=
  { now := 0
    tasks := [⟨"1", some "2", []⟩]
    estimates := [⟨"2", 30⟩]
    deadlines := noDeadlines
    unavailable := []
    projectDeadline := none }

/-- A satisfying assignment for `altIdCfg` (the task runs `[0, 30)` minutes,
its resolved duration being the 30 minutes of the `'ID'`-matched estimate). -/
def altIdSol : String → Int × Int := fun _ => (0, 30)

/-- An acyclic two-task batch: `b` depends on `a`. -/
def chainCfg : Cfg :=
  { now := 0
    tasks := [⟨"a", none, []⟩, ⟨"b", none, ["a"]⟩]
    estimates := []
    deadlines := noDeadlines
    unavailable := []
    projectDeadline := none }

/-- A satisfying assignment for `chainCfg`: `a` on `[0, 60)`, `b` on
`[60, 120)` minutes. -/
def chainSol : String → Int × Int := fun id => if id = "a" then (0, 60) else (60, 120)

/-- A batch where a task precedes its own dependency in the input list:
`a` (listed first) depends on `b` (listed second). -/
def revCfg : Cfg :=
  { now := 0
    tasks := [⟨"a", none, ["b"]⟩, ⟨"b", none, []⟩]
    estimates := []
    deadlines := noDeadlines
    unavailable := []
    projectDeadline := none }

/-- A satisfying assignment for `revCfg`: `b` on `[0, 60)`, `a` on
`[60, 120)` minutes — so the output list (in input order `a`, `b`) is not
sorted by start time. -/
def revSol : String → Int × Int := fun id => if id = "a" then (60, 120) else (0, 60)

/-- A single task with a deadline 7200 seconds (120 minutes) from now. -/
def dlCfg : Cfg :=
  { now := 0
    tasks := [⟨"t", none, []⟩]
    estimates := []
    deadlines := fun id => if id = "t" then some 7200 else none
    unavailable := []
    projectDeadline := none }

/-- A satisfying assignment for `dlCfg`: the task on `[0, 60)` minutes. -/
def dlSol : String → Int × Int := fun _ => (0, 60)

/-- A single task with a stale deadline 7200 seconds in the past. -/
def pastDlCfg : Cfg :=
  { now := 0
    tasks := [⟨"t", none, []⟩]
    estimates := []
    deadlines := fun id => if id = "t" then some (-7200) else none
    unavailable := []
    projectDeadline := none }

/-- A single task with a busy interval `[0s, 90s)` whose 1.5-minute width is
not minute-aligned: the truncated constraint lets the task start at minute 1,
inside the interval. -/
def busyCfg : Cfg :=
  { now := 0
    tasks := [⟨"t", none, []⟩]
    estimates := []
    deadlines := noDeadlines
    unavailable := [(0, 90)]
    projectDeadline := none }

/-- A satisfying assignment for `busyCfg`: the task starts at minute 1
(second 60), overlapping the busy interval `[0s, 90s)`. -/
def busySol : String → Int × Int := fun _ => (1, 61)

/-- A single task with a minute-aligned busy interval `[7200s, 10800s)`. -/
def busyAlignedCfg : Cfg :=
  { now := 0
    tasks := [⟨"t", none, []⟩]
    estimates := []
    deadlines := noDeadlines
    unavailable := [(7200, 10800)]
    projectDeadline := none }

/-- A satisfying assignment for `busyAlignedCfg`: the task on `[0, 60)`
minutes, before the interval. -/
def busyAlignedSol : String → Int × Int := fun _ => (0, 60)

/-- Schedule entry `a` of the mutation-leak input: a one-hour task on
`[0s, 3600s)` with well-formed times. -/
def leakEntryA : Entry := ⟨some "a", some 0, some 3600, none, none⟩

/-- Schedule entry `b` of the mutation-leak input: `[3600s, 7200s)` with a
`"deadline"` key whose value `datetime.fromisoformat` rejects. -/
def leakEntryB : Entry := ⟨some "b", some 3600, some 7200, some none, none⟩

/-- Entry `A` of the three-task rescheduling example: `[0, 1800)` (30 min). -/
def wEntryA : Entry := ⟨some "A", some 0, some 1800, none, none⟩

/-- Entry `B` of the three-task rescheduling example: `[1800, 3600)`. -/
def wEntryB : Entry := ⟨some "B", some 1800, some 3600, none, none⟩

/-- Entry `C` of the three-task rescheduling example: `[3600, 5400)`. -/
def wEntryC : Entry := ⟨some "C", some 3600, some 5400, none, none⟩

/-- The three-task schedule `[A, B, C]` in list order. -/
def wSchedule : List Entry := [wEntryA, wEntryB, wEntryC]

/-- A trivial instantiation of the abstract calendar operations. -/
def trivOps : CalendarOps :=
  { parseDate := fun _ => none
    parseFuture := fun _ => none
    groupSpecificDate := fun _ => ""
    endOfYear := id
    endOfMonth := id
    endOfNextMonth := id
    monthsAhead := fun _ t => t }

/-!
## Helper lemmas
-/

/-- Truncated minute conversion under-approximates a positive offset. -/
theorem tdiv60_le {x : Int} (h : 0 < Int.tdiv x 60) : 60 * Int.tdiv x 60 ≤ x := by
  have hx : 0 ≤ x := by
    by_contra hx
    push_neg at hx
    have h1 : (0:Int) ≤ (-x).tdiv 60 :=
      Int.tdiv_nonneg (by omega) (by omega)
    have h2 : (-x).tdiv 60 = -(x.tdiv 60) := Int.neg_tdiv x 60
    omega
  have : Int.tdiv x 60 = x / 60 := Int.tdiv_eq_ediv hx (by omega)
  rw [this] at h ⊢
  omega

/-- Truncated minute conversion is exact on whole-minute offsets. -/
theorem tdiv60_exact {x : Int} (h : (60:Int) ∣ x) : 60 * Int.tdiv x 60 = x :=
  Int.mul_tdiv_cancel' h

/-- Unpacking `satisfiesB`: the per-task variable constraints hold. -/
theorem satisfies_taskOk {cfg : Cfg} {sol : String → Int × Int}
    (h : satisfiesB cfg sol = true) {t : Task} (ht : t ∈ cfg.tasks) :
    taskOk cfg sol t = true := by
  simp only [satisfiesB, Bool.and_eq_true, List.all_eq_true] at h
  exact h.1.1.1 t ht

/-- Unpacking `satisfiesB`: the dependency constraints hold. -/
theorem satisfies_depOk {cfg : Cfg} {sol : String → Int × Int}
    (h : satisfiesB cfg sol = true) {t : Task} (ht : t ∈ cfg.tasks) :
    depOk cfg sol t = true := by
  simp only [satisfiesB, Bool.and_eq_true, List.all_eq_true] at h
  exact h.1.1.2 t ht

/-- Unpacking `satisfiesB`: the busy-interval constraints hold. -/
theorem satisfies_busyOk {cfg : Cfg} {sol : String → Int × Int}
    (h : satisfiesB cfg sol = true) {u : Int × Int} (hu : u ∈ cfg.unavailable) :
    busyOk cfg sol u = true := by
  simp only [satisfiesB, Bool.and_eq_true, List.all_eq_true] at h
  exact h.1.2 u hu

/-- Unpacking `taskOk`: the `end = start + duration` constraint. -/
theorem taskOk_end_eq {cfg : Cfg} {sol : String → Int × Int} {t : Task}
    (h : taskOk cfg sol t = true) :
    (sol t.id).2 = (sol t.id).1 + resolveDuration cfg.estimates t := by
  simp only [taskOk, Bool.and_eq_true, decide_eq_true_eq, beq_iff_eq] at h
  exact h.1.2

/-- Unpacking `taskOk`: the deadline constraint. -/
theorem taskOk_deadline {cfg : Cfg} {sol : String → Int × Int} {t : Task}
    (h : taskOk cfg sol t = true) : deadlineOk cfg sol t = true := by
  simp only [taskOk, Bool.and_eq_true] at h
  exact h.2

/-- Under any satisfying assignment, each task's end variable equals its
start variable plus the duration the result mapping looks up in
`task_durations` (a duplicate task id contributes one constraint per
duplicate, so the last duplicate's resolution — the one stored in the dict —
also binds the shared variables). -/
theorem satisfies_end_durOf {cfg : Cfg} {sol : String → Int × Int}
    (h : satisfiesB cfg sol = true) {t : Task} (ht : t ∈ cfg.tasks) :
    (sol t.id).2 = (sol t.id).1 + durOf cfg.tasks cfg.estimates t.id := by
  unfold durOf
  cases hf : cfg.tasks.reverse.find? (fun t' => t'.id == t.id) with
  | none =>
    rw [List.find?_eq_none] at hf
    exact absurd (by simp : ((fun t' => t'.id == t.id) t) = true)
      (hf t (List.mem_reverse.mpr ht))
  | some t' =>
    have ht' : t' ∈ cfg.tasks := List.mem_reverse.mp (List.mem_of_find?_eq_some hf)
    have hid : t'.id = t.id := by
      have := List.find?_some hf
      simpa using this
    have := taskOk_end_eq (satisfies_taskOk h ht')
    rw [hid] at this
    exact this

/-- Under any satisfying assignment, a dependency edge whose target is in the
batch separates the two tasks' variables. -/
theorem satisfies_dep {cfg : Cfg} {sol : String → Int × Int}
    (h : satisfiesB cfg sol = true) {t : Task} (ht : t ∈ cfg.tasks)
    {d : String} (hd : d ∈ t.dependencies) {t' : Task} (ht' : t' ∈ cfg.tasks)
    (hid : t'.id = d) : (sol d).2 ≤ (sol t.id).1 := by
  have hdep := satisfies_depOk h ht
  simp only [depOk, List.all_eq_true] at hdep
  have := hdep d hd
  rw [if_pos] at this
  · exact of_decide_eq_true this
  · exact List.any_eq_true.mpr ⟨t', ht', by simp [hid]⟩

/-- Under any satisfying assignment, every task clears every busy interval in
truncated-minute coordinates. -/
theorem satisfies_busy {cfg : Cfg} {sol : String → Int × Int}
    (h : satisfiesB cfg sol = true) {u : Int × Int} (hu : u ∈ cfg.unavailable)
    {t : Task} (ht : t ∈ cfg.tasks) :
    (sol t.id).2 ≤ minutesFromNow cfg.now u.1 ∨
      minutesFromNow cfg.now u.2 ≤ (sol t.id).1 := by
  have hb := satisfies_busyOk h hu
  simp only [busyOk, List.all_eq_true] at hb
  have := hb t ht
  rcases Bool.or_eq_true _ _ |>.mp this with h' | h'
  · exact Or.inl (of_decide_eq_true h')
  · exact Or.inr (of_decide_eq_true h')

/-- The busy-interval jump never moves the cursor backwards. -/
theorem jumpBusy_le (unavail : List (Int × Int)) (cur : Int) :
    cur ≤ jumpBusy unavail cur := by
  unfold jumpBusy
  cases hf : unavail.find? (fun u => decide (u.1 ≤ cur) && decide (cur < u.2)) with
  | none => simp only [hf]; exact le_rfl
  | some u =>
    simp only [hf]
    have := List.find?_some hf
    simp only [Bool.and_eq_true, decide_eq_true_eq] at this
    omega

/-- Every fallback entry's makespan is sixty times its looked-up duration. -/
theorem fallbackGo_durEq (cfg : Cfg) :
    ∀ (fuel : Nat) (r s : List String) (cur : Int),
      ∀ e ∈ fallbackGo cfg fuel r s cur,
        e.end_time - e.start_time = 60 * durOf cfg.tasks cfg.estimates e.task_id := by
  intro fuel
  induction fuel with
  | zero => intro r s cur e he; simp [fallbackGo] at he
  | succ n ih =>
    intro r s cur e he
    match r with
    | [] => simp [fallbackGo] at he
    | r₀ :: rest =>
      rw [fallbackGo] at he
      cases hf : findReady cfg.tasks (r₀ :: rest) s with
      | some t =>
        rw [hf] at he
        rcases List.mem_cons.mp he with rfl | hmem
        · simp [fallbackEntry]
        · exact ih _ _ _ e hmem
      | none =>
        rw [hf] at he
        rcases List.mem_cons.mp he with rfl | hmem
        · simp [fallbackEntry]
        · exact ih _ _ _ e hmem

/-- Nonnegative estimates give nonnegative looked-up durations (the defaults
are 60). -/
theorem durOf_nonneg {estimates : List Estimate}
    (hdur : ∀ est ∈ estimates, 0 ≤ est.estimated_duration_minutes)
    (tasks : List Task) (id : String) : 0 ≤ durOf tasks estimates id := by
  unfold durOf
  cases hf : tasks.reverse.find? (fun t => t.id == id) with
  | none => simp only [hf]; norm_num
  | some t =>
    simp only [hf]
    unfold resolveDuration
    cases h1 : estimates.find? (fun e => e.task_id == t.id) with
    | some e => simp only [h1]; exact hdur e (List.mem_of_find?_eq_some h1)
    | none =>
      simp only [h1]
      cases h2 : estimates.find? (fun e => e.task_id == t.altID.getD t.id) with
      | some e => simp only [h2]; exact hdur e (List.mem_of_find?_eq_some h2)
      | none => simp only [h2]; norm_num

/-- With nonnegative durations the fallback cursor only moves forward: every
entry starts at or after the cursor value the recursion was entered with. -/
theorem fallbackGo_start_ge (cfg : Cfg)
    (hdur : ∀ est ∈ cfg.estimates, 0 ≤ est.estimated_duration_minutes) :
    ∀ (fuel : Nat) (r s : List String) (cur : Int),
      ∀ e ∈ fallbackGo cfg fuel r s cur, cur ≤ e.start_time := by
  intro fuel
  induction fuel with
  | zero => intro r s cur e he; simp [fallbackGo] at he
  | succ n ih =>
    intro r s cur e he
    match r with
    | [] => simp [fallbackGo] at he
    | r₀ :: rest =>
      rw [fallbackGo] at he
      have hjump := jumpBusy_le cfg.unavailable cur
      cases hf : findReady cfg.tasks (r₀ :: rest) s with
      | some t =>
        rw [hf] at he
        rcases List.mem_cons.mp he with rfl | hmem
        · exact hjump
        · have hnn := durOf_nonneg hdur cfg.tasks t.id
          have := ih _ _ _ e hmem
          simp only [fallbackEntry] at this
          omega
      | none =>
        rw [hf] at he
        rcases List.mem_cons.mp he with rfl | hmem
        · exact hjump
        · have hnn := durOf_nonneg hdur cfg.tasks r₀
          have := ih _ _ _ e hmem
          simp only [fallbackEntry] at this
          omega

/-- With nonnegative durations, every fallback entry ends at or before the
start of every later entry in list order. -/
theorem fallbackGo_pairwise (cfg : Cfg)
    (hdur : ∀ est ∈ cfg.estimates, 0 ≤ est.estimated_duration_minutes) :
    ∀ (fuel : Nat) (r s : List String) (cur : Int),
      List.Pairwise (fun a b => a.end_time ≤ b.start_time)
        (fallbackGo cfg fuel r s cur) := by
  intro fuel
  induction fuel with
  | zero => intro r s cur; simp [fallbackGo]
  | succ n ih =>
    intro r s cur
    match r with
    | [] => simp [fallbackGo]
    | r₀ :: rest =>
      rw [fallbackGo]
      cases hf : findReady cfg.tasks (r₀ :: rest) s with
      | some t =>
        exact List.pairwise_cons.mpr
          ⟨fun b hb => fallbackGo_start_ge cfg hdur _ _ _ _ b hb, ih _ _ _⟩
      | none =>
        exact List.pairwise_cons.mpr
          ⟨fun b hb => fallbackGo_start_ge cfg hdur _ _ _ _ b hb, ih _ _ _⟩

/-- The first fallback entry starts at or after the entry cursor. -/
theorem fallbackGo_head_start (cfg : Cfg) :
    ∀ (fuel : Nat) (r s : List String) (cur : Int) (e : ScheduledTask),
      (fallbackGo cfg fuel r s cur).head? = some e → cur ≤ e.start_time := by
  intro fuel r s cur e he
  match fuel, r with
  | 0, _ => simp [fallbackGo] at he
  | _ + 1, [] => simp [fallbackGo] at he
  | n + 1, r₀ :: rest =>
    rw [fallbackGo] at he
    have hjump := jumpBusy_le cfg.unavailable cur
    cases hf : findReady cfg.tasks (r₀ :: rest) s with
    | some t =>
      rw [hf] at he
      simp only [List.head?_cons, Option.some.injEq] at he
      subst he; exact hjump
    | none =>
      rw [hf] at he
      simp only [List.head?_cons, Option.some.injEq] at he
      subst he; exact hjump

/-- Consecutive fallback entries never overlap: each entry ends at or before
the next begins (no duration-sign hypothesis needed). -/
theorem fallbackGo_chain (cfg : Cfg) :
    ∀ (fuel : Nat) (r s : List String) (cur : Int),
      List.Chain' (fun a b => a.end_time ≤ b.start_time)
        (fallbackGo cfg fuel r s cur) := by
  intro fuel
  induction fuel with
  | zero => intro r s cur; simp [fallbackGo]
  | succ n ih =>
    intro r s cur
    match r with
    | [] => simp [fallbackGo]
    | r₀ :: rest =>
      rw [fallbackGo]
      cases hf : findReady cfg.tasks (r₀ :: rest) s with
      | some t =>
        exact List.chain'_cons'.mpr
          ⟨fun b hb => fallbackGo_head_start cfg _ _ _ _ b hb, ih _ _ _⟩
      | none =>
        exact List.chain'_cons'.mpr
          ⟨fun b hb => fallbackGo_head_start cfg _ _ _ _ b hb, ih _ _ _⟩

/-- With nonnegative durations the fallback list is sorted by start time. -/
theorem fallbackGo_starts_chain (cfg : Cfg)
    (hdur : ∀ est ∈ cfg.estimates, 0 ≤ est.estimated_duration_minutes) :
    ∀ (fuel : Nat) (r s : List String) (cur : Int),
      List.Chain' (fun a b => a.start_time ≤ b.start_time)
        (fallbackGo cfg fuel r s cur) := by
  intro fuel
  induction fuel with
  | zero => intro r s cur; simp [fallbackGo]
  | succ n ih =>
    intro r s cur
    match r with
    | [] => simp [fallbackGo]
    | r₀ :: rest =>
      rw [fallbackGo]
      cases hf : findReady cfg.tasks (r₀ :: rest) s with
      | some t =>
        refine List.chain'_cons'.mpr ⟨fun b hb => ?_, ih _ _ _⟩
        have h1 := fallbackGo_head_start cfg _ _ _ _ b hb
        have hnn := durOf_nonneg hdur cfg.tasks t.id
        simp only [fallbackEntry] at h1 ⊢
        omega
      | none =>
        refine List.chain'_cons'.mpr ⟨fun b hb => ?_, ih _ _ _⟩
        have h1 := fallbackGo_head_start cfg _ _ _ _ b hb
        have hnn := durOf_nonneg hdur cfg.tasks r₀
        simp only [fallbackEntry] at h1 ⊢
        omega

/-- A ready task found by the inner scan is a batch task that is still
remaining. -/
theorem findReady_mem {tasks : List Task} {r s : List String} {t : Task}
    (hf : findReady tasks r s = some t) : t ∈ tasks ∧ t.id ∈ r := by
  unfold findReady at hf
  refine ⟨List.mem_of_find?_eq_some hf, ?_⟩
  have hp := List.find?_some hf
  simp only [Bool.and_eq_true] at hp
  simpa using hp.1

/-- Each fallback pass schedules exactly one remaining id: with enough fuel,
the produced ids are a permutation of the remaining ones. -/
theorem fallbackGo_perm (cfg : Cfg) :
    ∀ (fuel : Nat) (r s : List String) (cur : Int), r.length ≤ fuel →
      ((fallbackGo cfg fuel r s cur).map ScheduledTask.task_id).Perm r := by
  intro fuel
  induction fuel with
  | zero =>
    intro r s cur hr
    rw [List.length_eq_zero.mp (Nat.le_zero.mp hr)]
    simp [fallbackGo]
  | succ n ih =>
    intro r s cur hr
    match r with
    | [] => simp [fallbackGo]
    | r₀ :: rest =>
      rw [fallbackGo]
      cases hf : findReady cfg.tasks (r₀ :: rest) s with
      | some t =>
        have hmem := (findReady_mem hf).2
        have hlen : ((r₀ :: rest).erase t.id).length ≤ n := by
          rw [List.length_erase_of_mem hmem]
          simp only [List.length_cons] at hr ⊢
          omega
        have hperm := ih ((r₀ :: rest).erase t.id) (t.id :: s)
          (fallbackEntry cfg t.id cur).end_time hlen
        simp only [List.map_cons]
        exact ((hperm.cons t.id).trans (List.perm_cons_erase hmem).symm)
      | none =>
        simp only [List.map_cons]
        exact (ih rest (r₀ :: s) _ (by simpa using Nat.le_of_succ_le_succ hr)).cons r₀

/-- The solver-branch result lists one entry per input task, in input order,
carrying that task's id. -/
theorem solverSchedule_map_id (cfg : Cfg) (sol : String → Int × Int) :
    (solverSchedule cfg sol).map ScheduledTask.task_id = cfg.tasks.map Task.id := by
  unfold solverSchedule
  rw [List.map_map]
  rfl

/-- No assignment satisfies the constraints that `_create_schedule` builds for
the cyclic batch `cycleCfg` (start(a) ≥ end(b) and start(b) ≥ end(a) clash
with the two 60-minute durations), so the real run of `_create_schedule` on
this batch necessarily takes the fallback branch. -/
theorem cycleCfg_unsat (sol : String → Int × Int) :
    satisfiesB cycleCfg sol = false := by
  by_contra h
  rw [Bool.not_eq_false] at h
  have hta : (⟨"a", none, ["b"]⟩ : Task) ∈ cycleCfg.tasks := by simp [cycleCfg]
  have htb : (⟨"b", none, ["a"]⟩ : Task) ∈ cycleCfg.tasks := by simp [cycleCfg]
  have hdab : (sol "b").2 ≤ (sol "a").1 :=
    satisfies_dep h hta (by simp) htb rfl
  have hdba : (sol "a").2 ≤ (sol "b").1 :=
    satisfies_dep h htb (by simp) hta rfl
  have hea := taskOk_end_eq (satisfies_taskOk h hta)
  have heb := taskOk_end_eq (satisfies_taskOk h htb)
  have hra : resolveDuration cycleCfg.estimates ⟨"a", none, ["b"]⟩ = 60 := rfl
  have hrb : resolveDuration cycleCfg.estimates ⟨"b", none, ["a"]⟩ = 60 := rfl
  rw [hra] at hea
  rw [hrb] at heb
  simp only at hea heb hdab hdba
  omega

/-!
## Claim theorems
-/

/-- C1 (counterexample): for the batch `altIdCfg` — one task whose `'id'` key
is `"1"` and whose `'ID'` key is `"2"`, with the single estimate keyed `"2"`
(30 minutes) — no estimate's `task_id` equals the task's id, yet the solver
branch schedules the task for 1800 seconds (30 minutes), not the claimed
60-minute default. -/
theorem C1_counterexample :
    satisfiesB altIdCfg altIdSol = true ∧
    solverSchedule altIdCfg altIdSol = [⟨"1", 0, 1800, "default", none⟩] ∧
    altIdCfg.estimates.all (fun est => est.task_id != "1") = true ∧
    (1800 : Int) - 0 ≠ 60 * 60 :=
  ⟨by decide, by decide, by decide, by decide⟩

/-- C1 (amended): in both the solver branch and the fallback branch of
`_create_schedule`, every output entry satisfies `end − start = 60 · d`
seconds, where `d = durOf` is the resolved duration in minutes: the first
estimate whose `task_id` equals the task's id, else the first estimate whose
`task_id` equals the task's `'ID'`-key value (when present), else the
60-minute default; with duplicate task ids the last duplicate's resolution is
used. -/
theorem C1_duration_correctness (cfg : Cfg) (sol : String → Int × Int) :
    (∀ e ∈ solverSchedule cfg sol,
      e.end_time - e.start_time = 60 * durOf cfg.tasks cfg.estimates e.task_id) ∧
    (∀ e ∈ fallbackSchedule cfg,
      e.end_time - e.start_time = 60 * durOf cfg.tasks cfg.estimates e.task_id) := by
  constructor
  · intro e he
    obtain ⟨t, _, rfl⟩ := List.mem_map.mp he
    simp [solverEntry]
  · intro e he
    exact fallbackGo_durEq cfg _ _ _ _ e he

/-- C2 (counterexample): on the cyclic batch `cycleCfg` (where, by
`cycleCfg_unsat`, no assignment satisfies the solver model, so
`_create_schedule` takes the fallback branch) the fallback force-schedules
task `a` on `[0s, 3600s)` before its dependency `b`, which runs on
`[3600s, 7200s)`: `start(a) = 0 < 7200 = end(b)` although `"b"` is a
dependency of `a` present in the batch. -/
theorem C2_counterexample :
    fallbackSchedule cycleCfg =
      [⟨"a", 0, 3600, "default", none⟩, ⟨"b", 3600, 7200, "default", none⟩] ∧
    (⟨"a", none, ["b"]⟩ : Task) ∈ cycleCfg.tasks ∧
    (⟨"a", none, ["b"]⟩ : Task).dependencies.contains "b" = true ∧
    ¬ ((7200 : Int) ≤ 0) :=
  ⟨by decide, by decide, by decide, by decide⟩

/-- C2 (amended): dependency ordering `start(t) ≥ end(d)` holds for every
in-batch dependency edge in the solver branch; in the fallback branch (with
nonnegative estimate durations) every entry ends at or before the start of
every *later* entry — so dependency ordering holds whenever the dependency is
scheduled earlier, while a force-scheduled task of a cyclic batch may start
before a dependency that is scheduled after it. -/
theorem C2_dependency_ordering (cfg : Cfg) :
    (∀ sol : String → Int × Int, satisfiesB cfg sol = true →
      ∀ t ∈ cfg.tasks, ∀ d ∈ t.dependencies, ∀ t' ∈ cfg.tasks, t'.id = d →
        (solverEntry cfg sol t').end_time ≤ (solverEntry cfg sol t).start_time) ∧
    ((∀ est ∈ cfg.estimates, 0 ≤ est.estimated_duration_minutes) →
      List.Pairwise (fun a b => a.end_time ≤ b.start_time) (fallbackSchedule cfg)) := by
  constructor
  · intro sol h t ht d hd t' ht' hid
    have hdep := satisfies_dep h ht hd ht' hid
    have hend := satisfies_end_durOf h ht'
    rw [hid] at hend
    simp only [solverEntry]
    rw [hid]
    omega
  · intro hdur
    exact fallbackGo_pairwise cfg hdur _ _ _ _

/-- C2 (witness): on the acyclic batch `chainCfg` with the satisfying
assignment `chainSol`, the dependency `a` of task `b` ends before `b`
starts. -/
theorem C2_witness :
    satisfiesB chainCfg chainSol = true ∧
    (solverEntry chainCfg chainSol ⟨"a", none, []⟩).end_time ≤
      (solverEntry chainCfg chainSol ⟨"b", none, ["a"]⟩).start_time :=
  ⟨by decide,
   (C2_dependency_ordering chainCfg).1 chainSol (by decide)
     ⟨"b", none, ["a"]⟩ (by decide) "a" (by decide) ⟨"a", none, []⟩ (by decide) rfl⟩

/-- C4: for any batch with duplicate-free task ids (the data model requires
ids unique within a run) — cyclic batches included — both branches of
`_create_schedule` return exactly one `ScheduledTask` per input task: the
solver branch in input order, the fallback branch as a permutation of the
input ids (and in particular the fallback recursion, run on exactly
`initRemaining.length` fuel, terminates with a full schedule). -/
theorem C4_one_entry_per_task (cfg : Cfg) (sol : String → Int × Int)
    (h : (cfg.tasks.map Task.id).Nodup) :
    (solverSchedule cfg sol).map ScheduledTask.task_id = cfg.tasks.map Task.id ∧
    ((fallbackSchedule cfg).map ScheduledTask.task_id).Perm
      (cfg.tasks.map Task.id) := by
  refine ⟨solverSchedule_map_id cfg sol, ?_⟩
  have hperm := fallbackGo_perm cfg (initRemaining cfg.tasks).length
    (initRemaining cfg.tasks) [] cfg.now le_rfl
  unfold fallbackSchedule
  have hded : initRemaining cfg.tasks = cfg.tasks.map Task.id := by
    unfold initRemaining
    exact List.dedup_eq_self.mpr h
  rw [hded] at hperm
  rw [hded]
  exact hperm

/-- C4 (witness): the cyclic two-task batch `cycleCfg` has duplicate-free
ids, and its fallback schedule is a permutation of them. -/
theorem C4_witness :
    (cycleCfg.tasks.map Task.id).Nodup ∧
    ((fallbackSchedule cycleCfg).map ScheduledTask.task_id).Perm
      (cycleCfg.tasks.map Task.id) :=
  ⟨by decide, (C4_one_entry_per_task cycleCfg (fun _ => (0, 0)) (by decide)).2⟩

/-- C5: under any satisfying assignment of the solver model, a task with an
extracted deadline whose truncated minute offset from `now` is strictly
positive ends at or before that deadline in the returned schedule; and a
deadline with non-positive offset imposes no constraint at all — the
deadline conjunct of the model is satisfied by every assignment. -/
theorem C5_deadline_respect :
    (∀ (cfg : Cfg) (sol : String → Int × Int), satisfiesB cfg sol = true →
      ∀ t ∈ cfg.tasks, ∀ dl : Int, cfg.deadlines t.id = some dl →
        0 < minutesFromNow cfg.now dl → (solverEntry cfg sol t).end_time ≤ dl) ∧
    (∀ (cfg : Cfg) (sol : String → Int × Int) (t : Task) (dl : Int),
      cfg.deadlines t.id = some dl → minutesFromNow cfg.now dl ≤ 0 →
      deadlineOk cfg sol t = true) := by
  constructor
  · intro cfg sol h t ht dl hdl hpos
    have hdOk := taskOk_deadline (satisfies_taskOk h ht)
    simp only [deadlineOk, hdl, if_pos hpos, Bool.and_eq_true, decide_eq_true_eq]
      at hdOk
    have hle : (sol t.id).2 ≤ minutesFromNow cfg.now dl := hdOk.2
    have hend := satisfies_end_durOf h ht
    have htd : 60 * Int.tdiv (dl - cfg.now) 60 ≤ dl - cfg.now := tdiv60_le hpos
    simp only [solverEntry]
    unfold minutesFromNow at hle
    omega
  · intro cfg sol t dl hdl hnp
    simp only [deadlineOk, hdl]
    rw [if_neg (by omega)]

/-- C5 (witness): in `dlCfg` the task `"t"` has deadline offset 120 minutes
and ends at second 3600 ≤ 7200; in `pastDlCfg` its deadline lies 7200 seconds
in the past and the deadline conjunct holds vacuously. -/
theorem C5_witness :
    satisfiesB dlCfg dlSol = true ∧
    (solverEntry dlCfg dlSol ⟨"t", none, []⟩).end_time ≤ 7200 ∧
    deadlineOk pastDlCfg dlSol ⟨"t", none, []⟩ = true :=
  ⟨by decide,
   C5_deadline_respect.1 dlCfg dlSol (by decide) ⟨"t", none, []⟩ (by decide) 7200
     (by decide) (by decide),
   C5_deadline_respect.2 pastDlCfg dlSol ⟨"t", none, []⟩ (-7200) (by decide)
     (by decide)⟩

/-- C6 (counterexample): in `busyCfg` the busy interval `[0s, 90s)` is 1.5
minutes wide; its offsets truncate to minutes 0 and 1, so the assignment
`busySol` (task start variable 1) satisfies every model constraint, yet the
resulting entry `[60s, 3660s)` overlaps the busy interval on `[60s, 90s)` —
it neither ends at or before second 0 nor starts at or after second 90. -/
theorem C6_counterexample :
    satisfiesB busyCfg busySol = true ∧
    solverSchedule busyCfg busySol = [⟨"t", 60, 3660, "default", none⟩] ∧
    (0, 90) ∈ busyCfg.unavailable ∧
    ¬ ((3660 : Int) ≤ 0 ∨ (90 : Int) ≤ 60) :=
  ⟨by decide, by decide, by decide, by decide⟩

/-- C6 (amended): under any satisfying assignment, every scheduled task's
half-open interval avoids every busy interval *whose endpoints are
whole-minute offsets from `now`*: the task ends at or before the interval's
start or starts at or after its end.  (For an interval whose endpoints are
not minute-aligned, the truncation of offsets to whole minutes can let a task
intrude into the interval by less than one minute, as `C6_counterexample`
shows.) -/
theorem C6_no_overlap_aligned (cfg : Cfg) (sol : String → Int × Int)
    (h : satisfiesB cfg sol = true) :
    ∀ u ∈ cfg.unavailable, (60 : Int) ∣ (u.1 - cfg.now) →
      (60 : Int) ∣ (u.2 - cfg.now) → ∀ t ∈ cfg.tasks,
        (solverEntry cfg sol t).end_time ≤ u.1 ∨
          u.2 ≤ (solverEntry cfg sol t).start_time := by
  intro u hu h1 h2 t ht
  have hend := satisfies_end_durOf h ht
  have he1 : 60 * Int.tdiv (u.1 - cfg.now) 60 = u.1 - cfg.now := tdiv60_exact h1
  have he2 : 60 * Int.tdiv (u.2 - cfg.now) 60 = u.2 - cfg.now := tdiv60_exact h2
  rcases satisfies_busy h hu ht with hb | hb
  · left
    unfold minutesFromNow at hb
    simp only [solverEntry]
    omega
  · right
    unfold minutesFromNow at hb
    simp only [solverEntry]
    omega

/-- C6 (witness): with the minute-aligned busy interval `[7200s, 10800s)` of
`busyAlignedCfg`, the scheduled task `[0s, 3600s)` clears the interval. -/
theorem C6_witness :
    satisfiesB busyAlignedCfg busyAlignedSol = true ∧
    ((solverEntry busyAlignedCfg busyAlignedSol ⟨"t", none, []⟩).end_time ≤ 7200 ∨
      (10800 : Int) ≤
        (solverEntry busyAlignedCfg busyAlignedSol ⟨"t", none, []⟩).start_time) :=
  ⟨by decide,
   C6_no_overlap_aligned busyAlignedCfg busyAlignedSol (by decide) (7200, 10800)
     (by decide) (by decide) (by decide) ⟨"t", none, []⟩ (by decide)⟩

/-- C8 (counterexample): in `revCfg` task `a` (listed first) depends on `b`
(listed second); the assignment `revSol` (`b` on minutes `[0, 60)`, `a` on
`[60, 120)`) satisfies every model constraint, yet the solver-branch output —
in input order — has start times `3600, 0`: the entry at position 0 starts
strictly after the entry at position 1. -/
theorem C8_counterexample :
    satisfiesB revCfg revSol = true ∧
    solverSchedule revCfg revSol =
      [⟨"a", 3600, 7200, "default", none⟩, ⟨"b", 0, 3600, "default", none⟩] ∧
    ¬ List.Pairwise (fun x y => x.start_time ≤ y.start_time)
        (solverSchedule revCfg revSol) :=
  ⟨by decide, by decide, by decide⟩

/-- C8 (amended): the solver-branch list is in *input task order* — entry `i`
carries the id of the `i`-th input task — but it is not guaranteed to be in
temporal order of start times (see `C8_counterexample`). -/
theorem C8_solver_list_order (cfg : Cfg) (sol : String → Int × Int) :
    (solverSchedule cfg sol).map ScheduledTask.task_id = cfg.tasks.map Task.id :=
  solverSchedule_map_id cfg sol

/-- C10: the fallback schedule is sequential: each entry ends at or before
the next entry's start (the busy-interval jump only moves the cursor
forward), and with the data model's nonnegative durations the start times are
non-decreasing along the list. -/
theorem C10_fallback_sequential (cfg : Cfg)
    (h : ∀ est ∈ cfg.estimates, 0 ≤ est.estimated_duration_minutes) :
    List.Chain' (fun a b => a.end_time ≤ b.start_time) (fallbackSchedule cfg) ∧
    List.Chain' (fun a b => a.start_time ≤ b.start_time) (fallbackSchedule cfg) :=
  ⟨fallbackGo_chain cfg _ _ _ _, fallbackGo_starts_chain cfg h _ _ _ _⟩

/-- C10 (witness): the fallback schedule of the cyclic batch `cycleCfg` is
sequential and sorted by start times. -/
theorem C10_witness :
    List.Chain' (fun a b => a.end_time ≤ b.start_time) (fallbackSchedule cycleCfg) ∧
    List.Chain' (fun a b => a.start_time ≤ b.start_time)
      (fallbackSchedule cycleCfg) :=
  C10_fallback_sequential cycleCfg (by intro est h; simp [cycleCfg] at h)

/-- C3: evaluating `update_schedule` on `[leakEntryA, leakEntryB]` with task
`a` completed 30 minutes over plan.  The loop shifts entry `b`'s times in
place, then `datetime.fromisoformat` raises on `b`'s malformed deadline; the
`except` handler returns `current_schedule` — but its entry dicts are shared
with the shallow copy, so the returned schedule carries the already-shifted
entry `b` and differs from the input. -/
theorem C3_mutation_leak :
    update_schedule [leakEntryA, leakEntryB] "a" 90 =
      [leakEntryA, ⟨some "b", some 5400, some 9000, some none, none⟩] ∧
    update_schedule [leakEntryA, leakEntryB] "a" 90 ≠ [leakEntryA, leakEntryB] :=
  ⟨by decide, by decide⟩

/-- The index returned by the completed-task search is valid and points at
the returned entry. -/
theorem findCompleted_getElem {cid : String} :
    ∀ {l : List Entry} {i : Nat} {e : Entry},
      findCompleted cid l = some (some (i, e)) → l[i]? = some e := by
  intro l
  induction l with
  | nil => intro i e h; simp [findCompleted] at h
  | cons a rest ih =>
    intro i e h
    simp only [findCompleted] at h
    cases ha : a.task_id with
    | none => rw [ha] at h; simp at h
    | some tid =>
      simp only [ha] at h
      by_cases htid : tid = cid
      · rw [if_pos htid] at h
        simp only [Option.some.injEq, Prod.mk.injEq] at h
        obtain ⟨hi, he⟩ := h
        rw [← hi, ← he]
        simp
      · rw [if_neg htid] at h
        cases hr : findCompleted cid rest with
        | none => rw [hr] at h; simp at h
        | some o =>
          cases o with
          | none => rw [hr] at h; simp at h
          | some p =>
            obtain ⟨j, e'⟩ := p
            rw [hr] at h
            simp only [Option.some.injEq, Prod.mk.injEq] at h
            obtain ⟨hi, he⟩ := h
            rw [← hi, ← he]
            simpa using ih hr

/-- When every entry has parseable times and no malformed deadline, the shift
loop completes without an exception and moves each entry's start and end by
exactly `60 · diff` seconds. -/
theorem updateLoop_ok {diff : Int} :
    ∀ {L : List Entry},
      (∀ e ∈ L, e.start_time ≠ none ∧ e.end_time ≠ none ∧ e.deadline ≠ some none) →
      ∃ l, updateLoop diff L = .ok l ∧ l.length = L.length ∧
        ∀ (j : Nat) (e : Entry), L[j]? = some e → ∃ e', l[j]? = some e' ∧
          e'.start_time = e.start_time.map (· + 60 * diff) ∧
          e'.end_time = e.end_time.map (· + 60 * diff) := by
  intro L
  induction L with
  | nil =>
    intro _
    exact ⟨[], rfl, rfl, by intro j e h; simp at h⟩
  | cons a rest ih =>
    intro h
    obtain ⟨hs, he, hd⟩ := h a (List.mem_cons_self a rest)
    obtain ⟨s, hs'⟩ := Option.ne_none_iff_exists'.mp hs
    obtain ⟨en, he'⟩ := Option.ne_none_iff_exists'.mp he
    obtain ⟨l, hl, hlen, hpt⟩ := ih (fun e hmem => h e (List.mem_cons_of_mem a hmem))
    simp only [updateLoop, hs', he']
    cases hdl : a.deadline with
    | none =>
      simp only [hdl]
      refine ⟨_, by rw [hl], by simpa using hlen, ?_⟩
      intro j e hj
      match j with
      | 0 =>
        simp only [List.getElem?_cons_zero, Option.some.injEq] at hj
        subst hj
        exact ⟨_, List.getElem?_cons_zero, by simp [hs'], by simp [he']⟩
      | j + 1 =>
        simp only [List.getElem?_cons_succ] at hj ⊢
        exact hpt j e hj
    | some odl =>
      cases odl with
      | none => simp only [hdl]; exact absurd hdl hd
      | some dl =>
        simp only [hdl]
        refine ⟨_, by rw [hl], by simpa using hlen, ?_⟩
        intro j e hj
        match j with
        | 0 =>
          simp only [List.getElem?_cons_zero, Option.some.injEq] at hj
          subst hj
          exact ⟨_, List.getElem?_cons_zero, by simp [hs'], by simp [he']⟩
        | j + 1 =>
          simp only [List.getElem?_cons_succ] at hj ⊢
          exact hpt j e hj

/-- C7: when the completed task is found at index `i` with parseable times,
the duration delta is non-zero, and every later entry has parseable times and
no malformed deadline, `update_schedule` keeps the length, leaves every entry
at index `≤ i` (the completed entry and everything before it) exactly as in
the input, and shifts every later entry's start and end by exactly
`delta = actual − scheduled` minutes. -/
theorem C7_reschedule_shift (sched : List Entry) (cid : String) (actual : Int)
    (i : Nat) (e : Entry) (s en : Int)
    (hfind : findCompleted cid sched = some (some (i, e)))
    (hs : e.start_time = some s) (he : e.end_time = some en)
    (hdiff : actual - Int.tdiv (en - s) 60 ≠ 0)
    (hok : ∀ e' ∈ sched.drop (i + 1),
      e'.start_time ≠ none ∧ e'.end_time ≠ none ∧ e'.deadline ≠ some none) :
    (update_schedule sched cid actual).length = sched.length ∧
    (∀ j : Nat, j ≤ i → (update_schedule sched cid actual)[j]? = sched[j]?) ∧
    (∀ (j : Nat) (e' : Entry), i < j → sched[j]? = some e' →
      ∃ e'', (update_schedule sched cid actual)[j]? = some e'' ∧
        e''.start_time = e'.start_time.map (· + 60 * (actual - Int.tdiv (en - s) 60)) ∧
        e''.end_time = e'.end_time.map (· + 60 * (actual - Int.tdiv (en - s) 60))) := by
  have hgi : sched[i]? = some e := findCompleted_getElem hfind
  have hilen : i < sched.length := by
    by_contra hlt
    push_neg at hlt
    rw [List.getElem?_eq_none hlt] at hgi
    exact absurd hgi (by simp)
  obtain ⟨l, hl, hlen, hpt⟩ :=
    @updateLoop_ok (actual - Int.tdiv (en - s) 60) (sched.drop (i + 1)) hok
  have heq : update_schedule sched cid actual = sched.take (i + 1) ++ l := by
    unfold update_schedule
    rw [hfind]
    simp only [hs, he]
    rw [if_neg hdiff, hl]
  have htlen : (sched.take (i + 1)).length = i + 1 := by
    rw [List.length_take]
    omega
  refine ⟨?_, ?_, ?_⟩
  · rw [heq, List.length_append, htlen, hlen, List.length_drop]
    omega
  · intro j hj
    rw [heq, List.getElem?_append_left (by omega), List.getElem?_take_of_lt (by omega)]
  · intro j e' hij hj
    have hdropj : (sched.drop (i + 1))[j - (i + 1)]? = some e' := by
      rw [List.getElem?_drop]
      rwa [Nat.add_sub_cancel' (by omega : i + 1 ≤ j)]
    obtain ⟨e'', he'', hst, hen⟩ := hpt (j - (i + 1)) e' hdropj
    refine ⟨e'', ?_, hst, hen⟩
    rw [heq, List.getElem?_append_right (by omega), htlen]
    exact he''

/-- C7 (witness): the three-task schedule `[A, B, C]` (each 30 minutes, `A`
on `[0s, 1800s)`) with `A` reported at 60 actual minutes (delta +30): entry
`B` — and likewise `C` — is shifted by +1800 seconds on both ends, the list
keeps its length, and entry `A` is unchanged. -/
theorem C7_witness :
    (update_schedule wSchedule "A" 60).length = wSchedule.length ∧
    (update_schedule wSchedule "A" 60)[0]? = wSchedule[0]? ∧
    (∃ e'', (update_schedule wSchedule "A" 60)[1]? = some e'' ∧
      e''.start_time = wEntryB.start_time.map (· + 60 * (60 - Int.tdiv (1800 - 0) 60)) ∧
      e''.end_time = wEntryB.end_time.map (· + 60 * (60 - Int.tdiv (1800 - 0) 60))) :=
  ⟨(C7_reschedule_shift wSchedule "A" 60 0 wEntryA 0 1800 (by decide) rfl rfl
      (by decide) (by decide)).1,
   (C7_reschedule_shift wSchedule "A" 60 0 wEntryA 0 1800 (by decide) rfl rfl
      (by decide) (by decide)).2.1 0 (by decide),
   (C7_reschedule_shift wSchedule "A" 60 0 wEntryA 0 1800 (by decide) rfl rfl
      (by decide) (by decide)).2.2 1 wEntryB (by decide) (by decide)⟩

/-- C9: (1) on any Wednesday `now` (`weekday now = 2`),
`extract_deadline("finish by end of week")` returns the upcoming Sunday at
23:59:59 — the day four days ahead, which is a Sunday while none of the days
0–3 ahead is one, with second-of-day 23·3600+59·60+59 = 86399; (2) for every
`now`, `extract_deadline("in 3 days")` returns `now + 3 days` with the time
forced to 23:59:59. -/
theorem C9_deadline_phrases (ops : CalendarOps) (now : Int) :
    (weekday now = 2 →
      extract_deadline ops "finish by end of week" now =
        some (replace235959 (now + 86400 * 4)) ∧
      dayIndex (replace235959 (now + 86400 * 4)) = dayIndex now + 4 ∧
      weekday (replace235959 (now + 86400 * 4)) = 6 ∧
      secOfDay (replace235959 (now + 86400 * 4)) = 86399 ∧
      (∀ k : Int, 0 ≤ k → k < 4 → weekday (now + 86400 * k) ≠ 6)) ∧
    (extract_deadline ops "in 3 days" now =
        some (replace235959 (now + 86400 * 3)) ∧
      dayIndex (replace235959 (now + 86400 * 3)) = dayIndex now + 3 ∧
      secOfDay (replace235959 (now + 86400 * 3)) = 86399) := by
  constructor
  · intro hw
    have h0 : extract_deadline ops "finish by end of week" now =
        some (replace235959 (now + 86400 * ((6 - weekday now) % 7))) := rfl
    rw [hw, (by decide : ((6 - 2 : Int) % 7) = 4)] at h0
    refine ⟨h0, ?_, ?_, ?_, ?_⟩
    · simp only [dayIndex, replace235959]
      omega
    · simp only [weekday, dayIndex, replace235959] at hw ⊢
      omega
    · simp only [secOfDay, replace235959, dayIndex]
      omega
    · intro k hk0 hk4
      simp only [weekday, dayIndex] at hw ⊢
      omega
  · have h0 : extract_deadline ops "in 3 days" now =
        some (replace235959 (now + 86400 * 3)) := rfl
    refine ⟨h0, ?_, ?_⟩
    · simp only [dayIndex, replace235959]
      omega
    · simp only [secOfDay, replace235959, dayIndex]
      omega

/-- C9 (witness): `now = 518400` (day 6 of the epoch, a Wednesday). -/
theorem C9_witness :
    weekday 518400 = 2 ∧
    extract_deadline trivOps "finish by end of week" 518400 =
      some (replace235959 (518400 + 86400 * 4)) ∧
    extract_deadline trivOps "in 3 days" 518400 =
      some (replace235959 (518400 + 86400 * 3)) :=
  ⟨by decide,
   ((C9_deadline_phrases trivOps 518400).1 (by decide)).1,
   (C9_deadline_phrases trivOps 518400).2.1⟩

end Sched
